import Mathlib

/-!
Verification of the restinio sendfile transfer engine
(`dev/restinio/impl/sendfile_operation.hpp`).

The engine is embedded shallowly as an event-driven state machine.
The kernel `::sendfile` call and the asio readiness gate are external,
so their behaviour is supplied as oracles:

* a list of `SfOutcome` values, one per `::sendfile` call, in order;
* a list of `Option Nat` values, one per resolution of an
  `async_wait` registration (`none` = no error, `some e` = error code `e`).

Every observable action of the engine (a `sendfile` call, a readiness
registration, a completion-callback invocation) is recorded in an event
trace, so the temporal claims become statements about traces.
-/

set_option autoImplicit false

namespace Restinio

/-- The errno value `EAGAIN` compared against in the source. -/
def EAGAIN : Nat := 11

/-- Outcome of one `::sendfile` system call: `err e` stands for a return
value of `-1` with `errno = e`; `ok n` stands for a return value `n ≥ 0`. -/
inductive SfOutcome where
  | err : Nat → SfOutcome
  | ok : Nat → SfOutcome
deriving DecidableEq, Repr

/-- The relevant fields of `sendfile_options_t` consumed by the
constructor of `sendfile_operation_runner_base_t`: `file_descriptor()`,
`offset()`, `size()`, `chunk_size()`, `timelimit()`.  The C++ types
`file_descriptor_t`, `file_offset_t` and `file_size_t` are modelled as
`Nat`; the time limit (a `std::chrono` duration) as `Int`. -/
structure sendfile_options_t where
  file_descriptor : Nat
  offset : Nat
  size : Nat
  chunk_size : Nat
  timelimit : Int
deriving DecidableEq, Repr

/-- The mutable data members of `sendfile_operation_runner_base_t`
(the executor, socket reference and callback are modelled separately). -/
structure runner_state_t where
  m_file_descriptor : Nat
  m_next_write_offset : Nat
  m_remained_size : Nat
  m_transfered_size : Nat
  m_chunk_size : Nat
deriving DecidableEq, Repr

/-- The constructor of `sendfile_operation_runner_base_t`: copies
descriptor, offset, size and chunk size from the options and starts
with `m_transfered_size = 0`. -/
def mkRunner (opts : sendfile_options_t) : runner_state_t :=
  { m_file_descriptor := opts.file_descriptor
    m_next_write_offset := opts.offset
    m_remained_size := opts.size
    m_transfered_size := 0
    m_chunk_size := opts.chunk_size }

/-- The initialisation of `m_expires_after`:
`std::chrono::steady_clock::now() + sf_opts.timelimit()`; time points are
modelled as integers. -/
def expires_after (now : Int) (timelimit : Int) : Int := now + timelimit

/-- The state of the destination socket that the engine inspects: whether
its native handle is in non-blocking mode. -/
structure socket_state_t where
  nonBlocking : Bool
deriving DecidableEq, Repr

/-- Observable events of the engine, in order of occurrence. -/
inductive Ev where
  | attempt : Nat → Ev
  | waitReg : Ev
  | cb : Option Nat → Nat → Ev
deriving DecidableEq, Repr

/-- How the `while( true )` loop of the specialised `init_next_write`
was left: `cbErr e` = the `errno != EAGAIN` branch invoked the callback
with error `e` and broke out; `wait` = `wait_write_is_possible()` was
called (either on `EAGAIN` or on a zero return) and the loop broke out. -/
inductive LoopExit where
  | cbErr : Nat → LoopExit
  | wait : LoopExit
deriving DecidableEq, Repr

/-- Result of running the loop of the specialised `init_next_write`
until it breaks (or the oracle list is exhausted, `exit = none`, a model
artifact). `attempts` lists the requested byte count of each `sendfile`
call, in order; `rest` is the unconsumed part of the oracle. -/
structure LoopResult where
  state : runner_state_t
  exit : Option LoopExit
  attempts : List Nat
  rest : List SfOutcome
deriving DecidableEq, Repr

/-- Effect of a successful `::sendfile` call that moved `n` bytes: the
kernel advances `m_next_write_offset` (passed by pointer) by `n`, and the
source then runs `m_remained_size -= n; m_transfered_size += n;`. -/
def progress (st : runner_state_t) (n : Nat) : runner_state_t :=
  { st with
    m_next_write_offset := st.m_next_write_offset + n
    m_remained_size := st.m_remained_size - n
    m_transfered_size := st.m_transfered_size + n }

/-- The `while( true )` loop of
`sendfile_operation_runner_t<asio_ns::ip::tcp::socket>::init_next_write`:
each iteration calls `::sendfile` requesting
`std::min(m_remained_size, m_chunk_size)` bytes; `-1`/`EAGAIN` and a zero
return call `wait_write_is_possible()` and break; `-1` with any other
errno invokes the callback with that error and breaks; a positive return
updates the counters and loops around. -/
def sendfileLoop : runner_state_t → List SfOutcome → LoopResult
  | st, [] => ⟨st, none, [], []⟩
  | st, o :: rest =>
    match o with
    | .err e =>
      if e = EAGAIN then
        ⟨st, some LoopExit.wait, [min st.m_remained_size st.m_chunk_size], rest⟩
      else
        ⟨st, some (LoopExit.cbErr e), [min st.m_remained_size st.m_chunk_size], rest⟩
    | .ok n =>
      if n = 0 then
        ⟨st, some LoopExit.wait, [min st.m_remained_size st.m_chunk_size], rest⟩
      else
        let r := sendfileLoop (progress st n) rest
        ⟨r.state, r.exit, min st.m_remained_size st.m_chunk_size :: r.attempts, r.rest⟩

/-- Validity of a `sendfile` oracle against the kernel contract: a call
requesting `c` bytes transfers at most `c` bytes. The state is threaded
exactly as the engine threads it. -/
def sfValidB : runner_state_t → List SfOutcome → Bool
  | _, [] => true
  | st, o :: rest =>
    match o with
    | .err _ => sfValidB st rest
    | .ok n =>
      decide (n ≤ min st.m_remained_size st.m_chunk_size) && sfValidB (progress st n) rest

/-- Result of one call of `init_next_write` (one reactor turn):
`callback ec tr` = `m_after_sendfile_cb( ec, tr )` was invoked and the
call returned; `waiting` = an `async_wait` registration is pending;
`stuck` = the `sendfile` oracle was exhausted mid-loop (model artifact);
`returned` = the call returned without doing anything at all. -/
inductive TurnResult where
  | callback : Option Nat → Nat → TurnResult
  | waiting : TurnResult
  | stuck : TurnResult
  | returned : TurnResult
deriving DecidableEq, Repr

/-- Output of one `init_next_write` call. -/
structure TurnOutput where
  runner : runner_state_t
  socket : socket_state_t
  result : TurnResult
  trace : List Ev
  rest : List SfOutcome
deriving DecidableEq, Repr

/-- Wrapper turning a finished loop into a turn output, recording the
events: one `Ev.attempt` per `sendfile` call, then `Ev.waitReg` or the
callback invocation according to the exit taken. -/
def runLoop (sock : socket_state_t) (st : runner_state_t)
    (os : List SfOutcome) : TurnOutput :=
  let r := sendfileLoop st os
  match r.exit with
  | none => ⟨r.state, sock, TurnResult.stuck, r.attempts.map Ev.attempt, r.rest⟩
  | some (LoopExit.cbErr e) =>
    ⟨r.state, sock, TurnResult.callback (some e) r.state.m_transfered_size,
      r.attempts.map Ev.attempt ++ [Ev.cb (some e) r.state.m_transfered_size], r.rest⟩
  | some LoopExit.wait =>
    ⟨r.state, sock, TurnResult.waiting,
      r.attempts.map Ev.attempt ++ [Ev.waitReg], r.rest⟩

/-- `sendfile_operation_runner_t<asio_ns::ip::tcp::socket>::init_next_write`.
First the socket is lazily switched to non-blocking mode:
`setErr` is the outcome of `native_non_blocking( true, ec )` should that
call be made (`none` = success). If the switch fails, the callback is
invoked with the error and the current `m_transfered_size` and the call
returns before any `sendfile` call; otherwise the transfer loop runs. -/
def init_next_write (sock : socket_state_t) (setErr : Option Nat)
    (st : runner_state_t) (os : List SfOutcome) : TurnOutput :=
  if sock.nonBlocking then
    runLoop sock st os
  else
    match setErr with
    | some e =>
      ⟨st, sock, TurnResult.callback (some e) st.m_transfered_size,
        [Ev.cb (some e) st.m_transfered_size], os⟩
    | none => runLoop ⟨true⟩ st os

/-- `sendfile_operation_runner_t<Socket>::init_next_write` (the generic,
non-specialised runner): its entire body is commented out in the source,
so the call performs no I/O, registers nothing, invokes nothing and
changes no state. -/
def init_next_write_generic (sock : socket_state_t) (st : runner_state_t)
    (os : List SfOutcome) : TurnOutput :=
  ⟨st, sock, TurnResult.returned, [], os⟩

/-- Result of a whole operation run: `done ec tr` = the callback fired
with `(ec, tr)`; `suspended` = a readiness registration is outstanding
and the gate oracle is exhausted; `stuck` = the `sendfile` oracle was
exhausted mid-loop (model artifact). -/
inductive OpResult where
  | done : Option Nat → Nat → OpResult
  | suspended : OpResult
  | stuck : OpResult
deriving DecidableEq, Repr

/-- Output of a whole operation run. -/
structure RunOutput where
  runner : runner_state_t
  socket : socket_state_t
  result : OpResult
  trace : List Ev
  osRest : List SfOutcome
  gatesRest : List (Option Nat)
deriving DecidableEq, Repr

/-- The whole operation: repeated `init_next_write` turns linked by the
handler registered in `wait_write_is_possible()`.  Each pending wait is
resolved by the next gate-oracle entry `g`; the handler runs
`if( ec || 0 == m_remained_size ) m_after_sendfile_cb( ec, m_transfered_size );
else init_next_write();`. -/
def runOp (sock : socket_state_t) (setErr : Option Nat)
    (st : runner_state_t) (os : List SfOutcome) :
    List (Option Nat) → RunOutput
  | [] =>
    let t := init_next_write sock setErr st os
    match t.result with
    | TurnResult.callback ec tr =>
      ⟨t.runner, t.socket, OpResult.done ec tr, t.trace, t.rest, []⟩
    | TurnResult.waiting =>
      ⟨t.runner, t.socket, OpResult.suspended, t.trace, t.rest, []⟩
    | _ => ⟨t.runner, t.socket, OpResult.stuck, t.trace, t.rest, []⟩
  | g :: gs =>
    let t := init_next_write sock setErr st os
    match t.result with
    | TurnResult.callback ec tr =>
      ⟨t.runner, t.socket, OpResult.done ec tr, t.trace, t.rest, g :: gs⟩
    | TurnResult.waiting =>
      if g.isSome || t.runner.m_remained_size = 0 then
        ⟨t.runner, t.socket, OpResult.done g t.runner.m_transfered_size,
          t.trace ++ [Ev.cb g t.runner.m_transfered_size], t.rest, gs⟩
      else
        let r := runOp t.socket setErr t.runner t.rest gs
        ⟨r.runner, r.socket, r.result, t.trace ++ r.trace, r.osRest, r.gatesRest⟩
    | _ => ⟨t.runner, t.socket, OpResult.stuck, t.trace, t.rest, g :: gs⟩

/-- Is an event a callback invocation? -/
def isCb : Ev → Bool
  | Ev.cb _ _ => true
  | _ => false

/-- Is an event a `sendfile` call? -/
def isAttempt : Ev → Bool
  | Ev.attempt _ => true
  | _ => false

/-- Is an event an `async_wait` registration? -/
def isWaitReg : Ev → Bool
  | Ev.waitReg => true
  | _ => false

/-- Number of callback invocations in a trace. -/
def cbCount (t : List Ev) : Nat := t.countP isCb

/-- Number of `sendfile` calls in a trace. -/
def attemptCount (t : List Ev) : Nat := t.countP isAttempt

/-- Number of readiness registrations in a trace. -/
def waitRegCount (t : List Ev) : Nat := t.countP isWaitReg

/-- No event of any kind occurs after a callback invocation. -/
def nothingAfterCb : List Ev → Bool
  | [] => true
  | Ev.cb _ _ :: rest => rest.isEmpty
  | _ :: rest => nothingAfterCb rest

/-! ### Deadline enforcement (spec-modelled) -/

/-- Exit taken by the deadline-checking transfer loop:
`timeoutCb t` = callback invoked with the timeout outcome and transferred
count `t`; `cbErr e` and `wait` as in `LoopExit`. -/
inductive DlExit where
  | timeoutCb : Nat → DlExit
  | cbErr : Nat → DlExit
  | wait : DlExit
deriving DecidableEq, Repr

/-- Result of the deadline-checking transfer loop. -/
structure DlResult where
  state : runner_state_t
  exit : Option DlExit
  attempts : List Nat
  rest : List SfOutcome
deriving DecidableEq, Repr

/-- Modelled from the spec: deadline enforcement for the transfer loop.
The header under verification only computes the absolute deadline
(`m_expires_after`, see `expires_after`) and exposes it; the code acting
on it (the connection/timer machinery) lies outside this header.  Per the
spec (§4.1), the current time is compared with the deadline before each
transfer attempt: "If current time ≥ `deadline`: terminal timeout, invoke
callback with timeout outcome and `transferred`, stop."  The clock oracle
supplies the current time read at each check; the remainder of each
iteration is the source transfer loop of the TCP specialisation. -/
def deadlineLoop (deadline : Int) :
    List Int → runner_state_t → List SfOutcome → DlResult
  | [], st, os => ⟨st, none, [], os⟩
  | now :: clk, st, os =>
    if deadline ≤ now then
      ⟨st, some (DlExit.timeoutCb st.m_transfered_size), [], os⟩
    else
      match os with
      | [] => ⟨st, none, [], []⟩
      | o :: rest =>
        match o with
        | SfOutcome.err e =>
          if e = EAGAIN then
            ⟨st, some DlExit.wait, [min st.m_remained_size st.m_chunk_size], rest⟩
          else
            ⟨st, some (DlExit.cbErr e), [min st.m_remained_size st.m_chunk_size], rest⟩
        | SfOutcome.ok n =>
          if n = 0 then
            ⟨st, some DlExit.wait, [min st.m_remained_size st.m_chunk_size], rest⟩
          else
            let r := deadlineLoop deadline clk (progress st n) rest
            ⟨r.state, r.exit, min st.m_remained_size st.m_chunk_size :: r.attempts, r.rest⟩


/-! ### Delivered bytes and the Buffered strategy (spec-modelled) -/

/-- The bytes of `file` at positions `[off, off + n)`, in order.  Files
are modelled as total functions from byte position to byte value. -/
def fileSlice (file : Nat → Nat) (off n : Nat) : List Nat :=
  (List.range n).map (fun i => file (off + i))

/-- Semantic content of the loop's `::sendfile` calls: a successful call
that returns `n` hands the `n` file bytes starting at the current
`m_next_write_offset` to the socket.  This function follows
`sendfileLoop` step for step and collects those bytes. -/
def loopSent (file : Nat → Nat) : runner_state_t → List SfOutcome → List Nat
  | _, [] => []
  | st, o :: rest =>
    match o with
    | SfOutcome.err _ => []
    | SfOutcome.ok n =>
      if n = 0 then []
      else fileSlice file st.m_next_write_offset n
            ++ loopSent file (progress st n) rest

/-- Bytes delivered to the socket during one `init_next_write` turn:
none when the non-blocking switch fails, the loop's bytes otherwise. -/
def turnSent (file : Nat → Nat) (sock : socket_state_t) (setErr : Option Nat)
    (st : runner_state_t) (os : List SfOutcome) : List Nat :=
  if sock.nonBlocking then loopSent file st os
  else
    match setErr with
    | some _ => []
    | none => loopSent file st os

/-- Bytes delivered to the socket across a whole run; follows `runOp`
turn for turn. -/
def opSent (file : Nat → Nat) (sock : socket_state_t) (setErr : Option Nat)
    (st : runner_state_t) (os : List SfOutcome) :
    List (Option Nat) → List Nat
  | [] => turnSent file sock setErr st os
  | g :: gs =>
    let t := init_next_write sock setErr st os
    match t.result with
    | TurnResult.waiting =>
      if g.isSome || t.runner.m_remained_size = 0 then
        turnSent file sock setErr st os
      else
        turnSent file sock setErr st os ++ opSent file t.socket setErr t.runner t.rest gs
    | _ => turnSent file sock setErr st os

/-- The `sendfile` oracle of a fully cooperative kernel/socket: every
call transfers exactly the requested `min(remaining, chunk)` bytes (an
always-writable socket), and the final zero-byte request returns 0.  The
zero-chunk guard only serves termination; the spec requires
`chunk_size > 0`. -/
def coopOracle (remaining chunk : Nat) : List SfOutcome :=
  if remaining = 0 ∨ chunk = 0 then [SfOutcome.ok 0]
  else SfOutcome.ok (min remaining chunk)
        :: coopOracle (remaining - min remaining chunk) chunk
termination_by remaining
decreasing_by omega

/-- Modelled from the spec: the Buffered strategy (§4.3), absent from
this header (the generic runner's body is disabled; the spec's §9 treats
the buffered read-file-then-write-socket loop as the normative fallback).
Each attempt reads up to `min(remaining, chunk)` bytes from the file into
a transient buffer and writes that buffer to the socket, looping until
`remaining = 0` (terminal success).  The run is taken under the same
cooperative environment as `coopOracle`: reads return the requested
bytes and writes accept the whole buffer.  The result is the list of
bytes delivered to the socket, the terminal outcome (`none` = success)
and the final transferred count; the zero-chunk guard only serves
termination, the spec requires `chunk_size > 0`. -/
def buffered_strategy_run (file : Nat → Nat) (off remaining transferred chunk : Nat) :
    List Nat × Option Nat × Nat :=
  if remaining = 0 ∨ chunk = 0 then ([], none, transferred)
  else
    let n := min remaining chunk
    let r := buffered_strategy_run file (off + n) (remaining - n) (transferred + n) chunk
    (fileSlice file off n ++ r.1, r.2)
termination_by remaining
decreasing_by omega


/-! ### Trace bookkeeping lemmas -/

theorem cbCount_append (t1 t2 : List Ev) :
    cbCount (t1 ++ t2) = cbCount t1 + cbCount t2 := List.countP_append _ _ _

theorem waitRegCount_append (t1 t2 : List Ev) :
    waitRegCount (t1 ++ t2) = waitRegCount t1 + waitRegCount t2 := List.countP_append _ _ _

theorem attemptCount_append (t1 t2 : List Ev) :
    attemptCount (t1 ++ t2) = attemptCount t1 + attemptCount t2 := List.countP_append _ _ _

theorem cbCount_map_attempt (l : List Nat) : cbCount (List.map Ev.attempt l) = 0 := by
  induction l with
  | nil => rfl
  | cons a l ih =>
    simp only [List.map_cons, cbCount, List.countP_cons, isCb, Bool.false_eq_true,
      if_false]
    simp only [cbCount] at ih
    omega

theorem waitRegCount_map_attempt (l : List Nat) :
    waitRegCount (List.map Ev.attempt l) = 0 := by
  induction l with
  | nil => rfl
  | cons a l ih =>
    simp only [List.map_cons, waitRegCount, List.countP_cons, isWaitReg,
      Bool.false_eq_true, if_false]
    simp only [waitRegCount] at ih
    omega

theorem attemptCount_map_attempt (l : List Nat) :
    attemptCount (List.map Ev.attempt l) = l.length := by
  induction l with
  | nil => rfl
  | cons a l ih =>
    simp only [List.map_cons, attemptCount, List.countP_cons, isAttempt, if_true,
      List.length_cons]
    simp only [attemptCount] at ih
    omega

theorem cbCount_singleton_cb (ec : Option Nat) (tr : Nat) :
    cbCount [Ev.cb ec tr] = 1 := rfl

theorem nothingAfterCb_append_of_cbFree (t1 t2 : List Ev) (h : cbCount t1 = 0) :
    nothingAfterCb (t1 ++ t2) = nothingAfterCb t2 := by
  induction t1 with
  | nil => rfl
  | cons e t1 ih =>
    cases e with
    | attempt n =>
      simp only [cbCount, List.countP_cons, isCb] at h
      simpa [nothingAfterCb] using ih (by simpa [cbCount] using h)
    | waitReg =>
      simp only [cbCount, List.countP_cons, isCb] at h
      simpa [nothingAfterCb] using ih (by simpa [cbCount] using h)
    | cb ec tr =>
      exfalso
      simp [cbCount, List.countP_cons, isCb] at h

theorem nothingAfterCb_of_cbFree (t : List Ev) (h : cbCount t = 0) :
    nothingAfterCb t = true := by
  have := nothingAfterCb_append_of_cbFree t [] h
  simpa [nothingAfterCb] using this

/-! ### Loop-level lemmas -/

theorem progress_zero (st : runner_state_t) : progress st 0 = st := rfl

/-- The counters' invariant across the transfer loop, given a kernel-valid
oracle: the sum `m_remained_size + m_transfered_size` is preserved,
`m_transfered_size` does not decrease, `m_remained_size` does not grow,
the offset advances in lock step with `m_transfered_size`, and the
constant fields stay constant. -/
theorem sendfileLoop_inv (os : List SfOutcome) : ∀ st : runner_state_t,
    sfValidB st os = true →
    (sendfileLoop st os).state.m_remained_size + (sendfileLoop st os).state.m_transfered_size
        = st.m_remained_size + st.m_transfered_size ∧
    st.m_transfered_size ≤ (sendfileLoop st os).state.m_transfered_size ∧
    (sendfileLoop st os).state.m_remained_size ≤ st.m_remained_size ∧
    (sendfileLoop st os).state.m_next_write_offset + st.m_transfered_size
        = st.m_next_write_offset + (sendfileLoop st os).state.m_transfered_size ∧
    (sendfileLoop st os).state.m_chunk_size = st.m_chunk_size ∧
    (sendfileLoop st os).state.m_file_descriptor = st.m_file_descriptor := by
  induction os with
  | nil => intro st _; simp [sendfileLoop]
  | cons o rest ih =>
    intro st h
    cases o with
    | err e =>
      by_cases he : e = EAGAIN <;> simp [sendfileLoop, he]
    | ok n =>
      by_cases hn : n = 0
      · simp [sendfileLoop, hn]
      · simp only [sfValidB, Bool.and_eq_true, decide_eq_true_eq] at h
        have hle : n ≤ st.m_remained_size := le_trans h.1 (Nat.min_le_left _ _)
        obtain ⟨h1, h2, h3, h4, h5, h6⟩ := ih (progress st n) h.2
        have e2 : (progress st n).m_remained_size = st.m_remained_size - n := rfl
        have e3 : (progress st n).m_transfered_size = st.m_transfered_size + n := rfl
        have e4 : (progress st n).m_next_write_offset = st.m_next_write_offset + n := rfl
        have e5 : (progress st n).m_chunk_size = st.m_chunk_size := rfl
        have e6 : (progress st n).m_file_descriptor = st.m_file_descriptor := rfl
        simp only [sendfileLoop, hn, if_false]
        exact ⟨by omega, by omega, by omega, by omega, by rw [h5, e5], by rw [h6, e6]⟩

/-! ### Turn-level lemmas -/

/-- Counting facts for a trace made of attempts followed by a callback. -/
theorem counts_attempts_cb (l : List Nat) (ec : Option Nat) (tr : Nat) :
    cbCount (List.map Ev.attempt l ++ [Ev.cb ec tr]) = 1 ∧
    waitRegCount (List.map Ev.attempt l ++ [Ev.cb ec tr]) = 0 ∧
    (List.map Ev.attempt l ++ [Ev.cb ec tr]).getLast? = some (Ev.cb ec tr) ∧
    nothingAfterCb (List.map Ev.attempt l ++ [Ev.cb ec tr]) = true := by
  refine ⟨?_, ?_, ?_, ?_⟩
  · rw [cbCount_append, cbCount_map_attempt, cbCount_singleton_cb]
  · rw [waitRegCount_append, waitRegCount_map_attempt]; rfl
  · rw [List.getLast?_append_cons]; rfl
  · rw [nothingAfterCb_append_of_cbFree _ _ (cbCount_map_attempt l)]; rfl

/-- Counting facts for a trace made of attempts followed by a readiness
registration. -/
theorem counts_attempts_wait (l : List Nat) :
    cbCount (List.map Ev.attempt l ++ [Ev.waitReg]) = 0 ∧
    waitRegCount (List.map Ev.attempt l ++ [Ev.waitReg]) = 1 ∧
    nothingAfterCb (List.map Ev.attempt l ++ [Ev.waitReg]) = true := by
  refine ⟨?_, ?_, ?_⟩
  · rw [cbCount_append, cbCount_map_attempt]; rfl
  · rw [waitRegCount_append, waitRegCount_map_attempt]; rfl
  · rw [nothingAfterCb_append_of_cbFree _ _ (cbCount_map_attempt l)]; rfl

/-- Shape of a single loop-running turn: it ends in exactly one callback
invocation preceded only by `sendfile` attempts, or suspends with exactly
one readiness registration after its attempts, or runs out of oracle
(model artifact) having made only attempts. -/
theorem runLoop_shape (sock : socket_state_t) (st : runner_state_t)
    (os : List SfOutcome) :
    (∃ l ec tr, (runLoop sock st os).result = TurnResult.callback ec tr ∧
        (runLoop sock st os).trace = List.map Ev.attempt l ++ [Ev.cb ec tr]) ∨
    (∃ l, (runLoop sock st os).result = TurnResult.waiting ∧
        (runLoop sock st os).trace = List.map Ev.attempt l ++ [Ev.waitReg]) ∨
    (∃ l, (runLoop sock st os).result = TurnResult.stuck ∧
        (runLoop sock st os).trace = List.map Ev.attempt l) := by
  rcases hexit : (sendfileLoop st os).exit with _ | e
  · exact Or.inr (Or.inr ⟨(sendfileLoop st os).attempts, by simp [runLoop, hexit],
      by simp [runLoop, hexit]⟩)
  · cases e with
    | cbErr e =>
      exact Or.inl ⟨(sendfileLoop st os).attempts, some e,
        (sendfileLoop st os).state.m_transfered_size,
        by simp [runLoop, hexit], by simp [runLoop, hexit]⟩
    | wait =>
      exact Or.inr (Or.inl ⟨(sendfileLoop st os).attempts,
        by simp [runLoop, hexit], by simp [runLoop, hexit]⟩)

/-- Shape of one whole `init_next_write` call (the non-blocking switch
included). -/
theorem init_next_write_shape (sock : socket_state_t) (setErr : Option Nat)
    (st : runner_state_t) (os : List SfOutcome) :
    (∃ l ec tr, (init_next_write sock setErr st os).result = TurnResult.callback ec tr ∧
        (init_next_write sock setErr st os).trace = List.map Ev.attempt l ++ [Ev.cb ec tr]) ∨
    (∃ l, (init_next_write sock setErr st os).result = TurnResult.waiting ∧
        (init_next_write sock setErr st os).trace = List.map Ev.attempt l ++ [Ev.waitReg]) ∨
    (∃ l, (init_next_write sock setErr st os).result = TurnResult.stuck ∧
        (init_next_write sock setErr st os).trace = List.map Ev.attempt l) := by
  cases hsock : sock.nonBlocking with
  | true =>
    have he : init_next_write sock setErr st os = runLoop sock st os := by
      simp [init_next_write, hsock]
    rw [he]; exact runLoop_shape sock st os
  | false =>
    cases setErr with
    | some e =>
      refine Or.inl ⟨[], some e, st.m_transfered_size, ?_, ?_⟩ <;>
        simp [init_next_write, hsock]
    | none =>
      have he : init_next_write sock none st os = runLoop ⟨true⟩ st os := by
        simp [init_next_write, hsock]
      rw [he]; exact runLoop_shape _ st os

/-- The part of the oracle not consumed by the loop is still kernel-valid
for the state in which the loop stopped. -/
theorem sendfileLoop_rest_valid (os : List SfOutcome) : ∀ st : runner_state_t,
    sfValidB st os = true →
    sfValidB (sendfileLoop st os).state (sendfileLoop st os).rest = true := by
  induction os with
  | nil => intro st _; simp [sendfileLoop, sfValidB]
  | cons o rest ih =>
    intro st h
    cases o with
    | err e =>
      simp only [sfValidB] at h
      by_cases he : e = EAGAIN <;> simpa [sendfileLoop, he] using h
    | ok n =>
      simp only [sfValidB, Bool.and_eq_true, decide_eq_true_eq] at h
      by_cases hn : n = 0
      · subst hn
        simpa [sendfileLoop, progress_zero] using h.2
      · simp only [sendfileLoop, hn, if_false]
        exact ih (progress st n) h.2

/-! ### Whole-operation callback discipline -/

/-- Callback discipline across a whole run: a completed run's trace holds
exactly one callback invocation, as its final event, with every readiness
registration matched by a consumed gate event; an uncompleted run holds
none; no event ever follows a callback invocation. -/
theorem runOp_cb_disc (gates : List (Option Nat)) :
    ∀ (sock : socket_state_t) (setErr : Option Nat) (st : runner_state_t)
      (os : List SfOutcome),
    (∀ ec tr, (runOp sock setErr st os gates).result = OpResult.done ec tr →
        cbCount (runOp sock setErr st os gates).trace = 1 ∧
        (runOp sock setErr st os gates).trace.getLast? = some (Ev.cb ec tr) ∧
        waitRegCount (runOp sock setErr st os gates).trace
          + (runOp sock setErr st os gates).gatesRest.length = gates.length) ∧
    (((runOp sock setErr st os gates).result = OpResult.suspended ∨
        (runOp sock setErr st os gates).result = OpResult.stuck) →
        cbCount (runOp sock setErr st os gates).trace = 0) ∧
    nothingAfterCb (runOp sock setErr st os gates).trace = true := by
  induction gates with
  | nil =>
    intro sock setErr st os
    rcases init_next_write_shape sock setErr st os with
      ⟨l, ec, tr, hres, htrace⟩ | ⟨l, hres, htrace⟩ | ⟨l, hres, htrace⟩
    · obtain ⟨c1, c2, c3, c4⟩ := counts_attempts_cb l ec tr
      simp only [runOp, hres, htrace]
      refine ⟨?_, ?_, c4⟩
      · intro ec' tr' hdone
        injection hdone with h1 h2
        subst h1; subst h2
        exact ⟨c1, c3, by simp [c2]⟩
      · intro hcontra
        rcases hcontra with h | h <;> simp at h
    · obtain ⟨c1, c2, c3⟩ := counts_attempts_wait l
      simp only [runOp, hres, htrace]
      refine ⟨?_, fun _ => c1, c3⟩
      intro ec' tr' hdone; simp at hdone
    · simp only [runOp, hres, htrace]
      refine ⟨?_, fun _ => cbCount_map_attempt l,
        nothingAfterCb_of_cbFree _ (cbCount_map_attempt l)⟩
      intro ec' tr' hdone; simp at hdone
  | cons g gs ih =>
    intro sock setErr st os
    rcases init_next_write_shape sock setErr st os with
      ⟨l, ec, tr, hres, htrace⟩ | ⟨l, hres, htrace⟩ | ⟨l, hres, htrace⟩
    · obtain ⟨c1, c2, c3, c4⟩ := counts_attempts_cb l ec tr
      simp only [runOp, hres, htrace]
      refine ⟨?_, ?_, c4⟩
      · intro ec' tr' hdone
        injection hdone with h1 h2
        subst h1; subst h2
        exact ⟨c1, c3, by simp [c2]⟩
      · intro hcontra
        rcases hcontra with h | h <;> simp at h
    · obtain ⟨c1, c2, c3⟩ := counts_attempts_wait l
      simp only [runOp, hres]
      split
      · refine ⟨?_, ?_, ?_⟩
        · intro ec' tr' hdone
          injection hdone with h1 h2
          subst h1; subst h2
          refine ⟨?_, ?_, ?_⟩
          · rw [cbCount_append, htrace, c1]; rfl
          · rw [List.getLast?_append_cons]; rfl
          · rw [waitRegCount_append, htrace, c2]
            simp only [waitRegCount, isWaitReg, List.countP_cons, List.countP_nil,
              List.length_cons, Bool.false_eq_true, if_false]
            omega
        · intro hcontra
          rcases hcontra with h | h <;> simp at h
        · rw [nothingAfterCb_append_of_cbFree _ _ (by rw [htrace]; exact c1)]
          rfl
      · obtain ⟨ih1, ih2, ih3⟩ :=
          ih (init_next_write sock setErr st os).socket setErr
            (init_next_write sock setErr st os).runner
            (init_next_write sock setErr st os).rest
        refine ⟨?_, ?_, ?_⟩
        · intro ec' tr' hdone
          obtain ⟨d1, d2, d3⟩ := ih1 ec' tr' hdone
          have hne : (runOp (init_next_write sock setErr st os).socket setErr
              (init_next_write sock setErr st os).runner
              (init_next_write sock setErr st os).rest gs).trace ≠ [] := by
            intro hnil
            rw [hnil] at d2
            simp at d2
          refine ⟨?_, ?_, ?_⟩
          · rw [cbCount_append, htrace, c1, d1]
          · rw [List.getLast?_append_of_ne_nil _ hne, d2]
          · rw [waitRegCount_append, htrace, c2]
            simp only [List.length_cons]
            omega
        · intro hcontra
          rw [cbCount_append, htrace, c1, ih2 hcontra]
        · rw [nothingAfterCb_append_of_cbFree _ _ (by rw [htrace]; exact c1)]
          exact ih3
    · simp only [runOp, hres, htrace]
      refine ⟨?_, fun _ => cbCount_map_attempt l,
        nothingAfterCb_of_cbFree _ (cbCount_map_attempt l)⟩
      intro ec' tr' hdone; simp at hdone

/-! ### Turn and run state invariants -/

theorem runLoop_fields (sock : socket_state_t) (st : runner_state_t)
    (os : List SfOutcome) :
    (runLoop sock st os).runner = (sendfileLoop st os).state ∧
    (runLoop sock st os).rest = (sendfileLoop st os).rest := by
  rcases hexit : (sendfileLoop st os).exit with _ | e
  · simp [runLoop, hexit]
  · cases e <;> simp [runLoop, hexit]

/-- The counters' invariant across one `init_next_write` turn, plus
preservation of the kernel-validity of the unconsumed oracle. -/
theorem init_next_write_inv (sock : socket_state_t) (setErr : Option Nat)
    (st : runner_state_t) (os : List SfOutcome) (h : sfValidB st os = true) :
    (init_next_write sock setErr st os).runner.m_remained_size
        + (init_next_write sock setErr st os).runner.m_transfered_size
        = st.m_remained_size + st.m_transfered_size ∧
    st.m_transfered_size ≤ (init_next_write sock setErr st os).runner.m_transfered_size ∧
    (init_next_write sock setErr st os).runner.m_remained_size ≤ st.m_remained_size ∧
    (init_next_write sock setErr st os).runner.m_next_write_offset + st.m_transfered_size
        = st.m_next_write_offset + (init_next_write sock setErr st os).runner.m_transfered_size ∧
    (init_next_write sock setErr st os).runner.m_chunk_size = st.m_chunk_size ∧
    (init_next_write sock setErr st os).runner.m_file_descriptor = st.m_file_descriptor ∧
    sfValidB (init_next_write sock setErr st os).runner
      (init_next_write sock setErr st os).rest = true := by
  cases hsock : sock.nonBlocking with
  | true =>
    have he : init_next_write sock setErr st os = runLoop sock st os := by
      simp [init_next_write, hsock]
    obtain ⟨hr, hrest⟩ := runLoop_fields sock st os
    rw [he, hr, hrest]
    obtain ⟨i1, i2, i3, i4, i5, i6⟩ := sendfileLoop_inv os st h
    exact ⟨i1, i2, i3, i4, i5, i6, sendfileLoop_rest_valid os st h⟩
  | false =>
    cases setErr with
    | some e =>
      simp only [init_next_write, hsock]
      exact ⟨rfl, le_refl _, le_refl _, rfl, rfl, rfl, by simpa using h⟩
    | none =>
      have he : init_next_write sock none st os = runLoop ⟨true⟩ st os := by
        simp [init_next_write, hsock]
      obtain ⟨hr, hrest⟩ := runLoop_fields ⟨true⟩ st os
      rw [he, hr, hrest]
      obtain ⟨i1, i2, i3, i4, i5, i6⟩ := sendfileLoop_inv os st h
      exact ⟨i1, i2, i3, i4, i5, i6, sendfileLoop_rest_valid os st h⟩

/-- The counters' invariant across a whole run, for every kernel-valid
`sendfile` oracle and arbitrary gate oracle. -/
theorem runOp_state_inv (gates : List (Option Nat)) :
    ∀ (sock : socket_state_t) (setErr : Option Nat) (st : runner_state_t)
      (os : List SfOutcome), sfValidB st os = true →
    (runOp sock setErr st os gates).runner.m_remained_size
        + (runOp sock setErr st os gates).runner.m_transfered_size
        = st.m_remained_size + st.m_transfered_size ∧
    st.m_transfered_size ≤ (runOp sock setErr st os gates).runner.m_transfered_size ∧
    (runOp sock setErr st os gates).runner.m_remained_size ≤ st.m_remained_size ∧
    (runOp sock setErr st os gates).runner.m_next_write_offset + st.m_transfered_size
        = st.m_next_write_offset + (runOp sock setErr st os gates).runner.m_transfered_size ∧
    (runOp sock setErr st os gates).runner.m_chunk_size = st.m_chunk_size ∧
    (runOp sock setErr st os gates).runner.m_file_descriptor = st.m_file_descriptor := by
  induction gates with
  | nil =>
    intro sock setErr st os h
    obtain ⟨i1, i2, i3, i4, i5, i6, _⟩ := init_next_write_inv sock setErr st os h
    cases hres : (init_next_write sock setErr st os).result <;>
      simp only [runOp, hres] <;> exact ⟨i1, i2, i3, i4, i5, i6⟩
  | cons g gs ih =>
    intro sock setErr st os h
    obtain ⟨i1, i2, i3, i4, i5, i6, hv⟩ := init_next_write_inv sock setErr st os h
    cases hres : (init_next_write sock setErr st os).result with
    | callback ec tr => simp only [runOp, hres]; exact ⟨i1, i2, i3, i4, i5, i6⟩
    | stuck => simp only [runOp, hres]; exact ⟨i1, i2, i3, i4, i5, i6⟩
    | returned => simp only [runOp, hres]; exact ⟨i1, i2, i3, i4, i5, i6⟩
    | waiting =>
      simp only [runOp, hres]
      split
      · exact ⟨i1, i2, i3, i4, i5, i6⟩
      · dsimp only
        obtain ⟨j1, j2, j3, j4, j5, j6⟩ :=
          ih (init_next_write sock setErr st os).socket setErr
            (init_next_write sock setErr st os).runner
            (init_next_write sock setErr st os).rest hv
        exact ⟨by omega, by omega, by omega, by omega, j5.trans i5, j6.trans i6⟩

/-! ### Claim theorems -/

/-- C1: For every operation (every socket state, non-blocking-switch
outcome, kernel oracle and gate oracle), the completion callback is
invoked at most once; in every completed run it is invoked exactly once
and is the final event of the run (so no transfer attempt and no
readiness registration follows it), and every readiness registration of
the run has been matched by a consumed gate event, so none remains
outstanding; a run that never completes invokes it zero times. -/
theorem claim_C1 (sock : socket_state_t) (setErr : Option Nat)
    (st : runner_state_t) (os : List SfOutcome) (gates : List (Option Nat)) :
    cbCount (runOp sock setErr st os gates).trace ≤ 1 ∧
    nothingAfterCb (runOp sock setErr st os gates).trace = true ∧
    (∀ ec tr, (runOp sock setErr st os gates).result = OpResult.done ec tr →
        cbCount (runOp sock setErr st os gates).trace = 1 ∧
        (runOp sock setErr st os gates).trace.getLast? = some (Ev.cb ec tr) ∧
        waitRegCount (runOp sock setErr st os gates).trace
          + (runOp sock setErr st os gates).gatesRest.length = gates.length) ∧
    (((runOp sock setErr st os gates).result = OpResult.suspended ∨
        (runOp sock setErr st os gates).result = OpResult.stuck) →
        cbCount (runOp sock setErr st os gates).trace = 0) := by
  obtain ⟨d1, d2, d3⟩ := runOp_cb_disc gates sock setErr st os
  refine ⟨?_, d3, d1, d2⟩
  cases hres : (runOp sock setErr st os gates).result with
  | done ec tr => exact le_of_eq (d1 ec tr hres).1
  | suspended => rw [d2 (Or.inl hres)]; omega
  | stuck => rw [d2 (Or.inr hres)]; omega

theorem claim_C1_witness :
    cbCount (runOp ⟨true⟩ none ⟨3, 0, 5, 0, 10⟩
        [SfOutcome.ok 5, SfOutcome.ok 0] [none]).trace = 1 ∧
    waitRegCount (runOp ⟨true⟩ none ⟨3, 0, 5, 0, 10⟩
        [SfOutcome.ok 5, SfOutcome.ok 0] [none]).trace
      + (runOp ⟨true⟩ none ⟨3, 0, 5, 0, 10⟩
        [SfOutcome.ok 5, SfOutcome.ok 0] [none]).gatesRest.length = 1 := by
  have h := claim_C1 ⟨true⟩ none ⟨3, 0, 5, 0, 10⟩
    [SfOutcome.ok 5, SfOutcome.ok 0] [none]
  exact ⟨(h.2.2.1 none 5 (by decide)).1, (h.2.2.1 none 5 (by decide)).2.2⟩

/-- C5: Throughout the operation the invariant
`m_remained_size + m_transfered_size = total requested` holds (from
construction, the sum always equals `opts.size`, so `m_transfered_size`
never exceeds it); across any run segment `m_transfered_size` is
non-decreasing and `m_remained_size` non-increasing; and every attempt
that makes progress (`n > 0`) strictly decreases `m_remained_size` while
preserving the sum. -/
theorem claim_C5 :
    (∀ (sock : socket_state_t) (setErr : Option Nat) (opts : sendfile_options_t)
        (os : List SfOutcome) (gates : List (Option Nat)),
        sfValidB (mkRunner opts) os = true →
        (runOp sock setErr (mkRunner opts) os gates).runner.m_remained_size
          + (runOp sock setErr (mkRunner opts) os gates).runner.m_transfered_size
          = opts.size ∧
        (runOp sock setErr (mkRunner opts) os gates).runner.m_transfered_size
          ≤ opts.size) ∧
    (∀ (sock : socket_state_t) (setErr : Option Nat) (st : runner_state_t)
        (os : List SfOutcome) (gates : List (Option Nat)),
        sfValidB st os = true →
        st.m_transfered_size ≤ (runOp sock setErr st os gates).runner.m_transfered_size ∧
        (runOp sock setErr st os gates).runner.m_remained_size ≤ st.m_remained_size ∧
        (runOp sock setErr st os gates).runner.m_remained_size
          + (runOp sock setErr st os gates).runner.m_transfered_size
          = st.m_remained_size + st.m_transfered_size) ∧
    (∀ (st : runner_state_t) (n : Nat), 0 < n →
        n ≤ min st.m_remained_size st.m_chunk_size →
        (progress st n).m_remained_size < st.m_remained_size ∧
        (progress st n).m_remained_size + (progress st n).m_transfered_size
          = st.m_remained_size + st.m_transfered_size) := by
  refine ⟨?_, ?_, ?_⟩
  · intro sock setErr opts os gates h
    obtain ⟨i1, i2, i3, i4, i5, i6⟩ := runOp_state_inv gates sock setErr (mkRunner opts) os h
    have e1 : (mkRunner opts).m_remained_size = opts.size := rfl
    have e2 : (mkRunner opts).m_transfered_size = 0 := rfl
    omega
  · intro sock setErr st os gates h
    obtain ⟨i1, i2, i3, i4, i5, i6⟩ := runOp_state_inv gates sock setErr st os h
    omega
  · intro st n hn hle
    have e1 : (progress st n).m_remained_size = st.m_remained_size - n := rfl
    have e2 : (progress st n).m_transfered_size = st.m_transfered_size + n := rfl
    have : n ≤ st.m_remained_size := le_trans hle (Nat.min_le_left _ _)
    omega

theorem claim_C5_witness :
    (runOp ⟨true⟩ none (mkRunner ⟨3, 0, 5, 10, 7⟩) [SfOutcome.ok 3] []).runner.m_remained_size
      + (runOp ⟨true⟩ none (mkRunner ⟨3, 0, 5, 10, 7⟩) [SfOutcome.ok 3] []).runner.m_transfered_size
      = 5 ∧
    (runOp ⟨true⟩ none (mkRunner ⟨3, 0, 5, 10, 7⟩) [SfOutcome.ok 3] []).runner.m_transfered_size
      ≤ 5 ∧
    (progress ⟨3, 0, 5, 0, 10⟩ 3).m_remained_size < 5 := by
  have h := claim_C5
  have h1 := h.1 ⟨true⟩ none ⟨3, 0, 5, 10, 7⟩ [SfOutcome.ok 3] [] (by decide)
  have h3 := h.2.2 ⟨3, 0, 5, 0, 10⟩ 3 (by decide) (by decide)
  exact ⟨h1.1, h1.2, h3.1⟩

/-- C6: Every `sendfile` call of the loop requests exactly
`min(m_remained_size, m_chunk_size)` bytes at the state in which it is
made (so at most that bound; in particular every request of a run is at
most the chunk size), and the file offset tracks the transferred count
exactly: from construction, `m_next_write_offset` always equals the
initial offset plus `m_transfered_size`. -/
theorem claim_C6 :
    (∀ (st : runner_state_t) (o : SfOutcome) (rest : List SfOutcome),
        (sendfileLoop st (o :: rest)).attempts.head?
          = some (min st.m_remained_size st.m_chunk_size)) ∧
    (∀ (st : runner_state_t) (os : List SfOutcome) (a : Nat),
        a ∈ (sendfileLoop st os).attempts → a ≤ st.m_chunk_size) ∧
    (∀ (sock : socket_state_t) (setErr : Option Nat) (opts : sendfile_options_t)
        (os : List SfOutcome) (gates : List (Option Nat)),
        sfValidB (mkRunner opts) os = true →
        (runOp sock setErr (mkRunner opts) os gates).runner.m_next_write_offset
          = opts.offset
            + (runOp sock setErr (mkRunner opts) os gates).runner.m_transfered_size) := by
  refine ⟨?_, ?_, ?_⟩
  · intro st o rest
    cases o with
    | err e => by_cases he : e = EAGAIN <;> simp [sendfileLoop, he]
    | ok n => by_cases hn : n = 0 <;> simp [sendfileLoop, hn]
  · intro st os
    induction os generalizing st with
    | nil => intro a ha; simp [sendfileLoop] at ha
    | cons o rest ih =>
      intro a ha
      cases o with
      | err e =>
        by_cases he : e = EAGAIN <;>
          simp [sendfileLoop, he] at ha <;>
          exact ha ▸ Nat.min_le_right _ _
      | ok n =>
        by_cases hn : n = 0
        · simp [sendfileLoop, hn] at ha
          exact ha ▸ Nat.min_le_right _ _
        · simp only [sendfileLoop, hn, if_false, List.mem_cons] at ha
          rcases ha with ha | ha
          · exact ha ▸ Nat.min_le_right _ _
          · have := ih (progress st n) a ha
            simpa [progress] using this
  · intro sock setErr opts os gates h
    obtain ⟨i1, i2, i3, i4, i5, i6⟩ := runOp_state_inv gates sock setErr (mkRunner opts) os h
    have e1 : (mkRunner opts).m_transfered_size = 0 := rfl
    have e2 : (mkRunner opts).m_next_write_offset = opts.offset := rfl
    omega

theorem claim_C6_witness :
    (sendfileLoop ⟨3, 0, 5, 0, 10⟩ [SfOutcome.ok 2]).attempts.head? = some 5 ∧
    (5 : Nat) ≤ 10 ∧
    (runOp ⟨true⟩ none (mkRunner ⟨3, 40, 5, 10, 7⟩) [SfOutcome.ok 3] []).runner.m_next_write_offset
      = 40 + (runOp ⟨true⟩ none (mkRunner ⟨3, 40, 5, 10, 7⟩) [SfOutcome.ok 3] []).runner.m_transfered_size := by
  have h := claim_C6
  refine ⟨h.1 ⟨3, 0, 5, 0, 10⟩ (SfOutcome.ok 2) [], ?_, h.2.2 ⟨true⟩ none ⟨3, 40, 5, 10, 7⟩ [SfOutcome.ok 3] [] (by decide)⟩
  exact h.2.1 ⟨3, 0, 5, 0, 10⟩ [SfOutcome.ok 2] 5 (by decide)

/-- C7: Classification of an attempt's outcome.  On `-1`/`EAGAIN` the
engine registers exactly one writable-readiness wait and suspends with
its state unchanged; when that wait resolves with a gate error the
callback is invoked with the gate's error and the current
`m_transfered_size`, and when it resolves without error (with bytes still
remaining) the engine re-enters the loop from the same state.  On `-1`
with any other errno the operation is terminal on first occurrence: the
callback is invoked with that error and the current `m_transfered_size`,
no readiness wait is registered, and the remaining oracle is left
unconsumed (no retry, no further I/O). -/
theorem claim_C7 :
    (∀ (sock : socket_state_t) (setErr : Option Nat) (st : runner_state_t)
        (rest : List SfOutcome) (gs : List (Option Nat)) (e : Nat),
        sock.nonBlocking = true →
        (init_next_write sock setErr st (SfOutcome.err EAGAIN :: rest)).result
            = TurnResult.waiting ∧
        (init_next_write sock setErr st (SfOutcome.err EAGAIN :: rest)).runner = st ∧
        (init_next_write sock setErr st (SfOutcome.err EAGAIN :: rest)).trace
            = [Ev.attempt (min st.m_remained_size st.m_chunk_size), Ev.waitReg] ∧
        runOp sock setErr st (SfOutcome.err EAGAIN :: rest) (some e :: gs)
            = ⟨st, sock, OpResult.done (some e) st.m_transfered_size,
                [Ev.attempt (min st.m_remained_size st.m_chunk_size), Ev.waitReg,
                  Ev.cb (some e) st.m_transfered_size], rest, gs⟩) ∧
    (∀ (sock : socket_state_t) (setErr : Option Nat) (st : runner_state_t)
        (rest : List SfOutcome) (gs : List (Option Nat)),
        sock.nonBlocking = true → st.m_remained_size ≠ 0 →
        runOp sock setErr st (SfOutcome.err EAGAIN :: rest) (none :: gs)
            = ⟨(runOp sock setErr st rest gs).runner,
                (runOp sock setErr st rest gs).socket,
                (runOp sock setErr st rest gs).result,
                [Ev.attempt (min st.m_remained_size st.m_chunk_size), Ev.waitReg]
                  ++ (runOp sock setErr st rest gs).trace,
                (runOp sock setErr st rest gs).osRest,
                (runOp sock setErr st rest gs).gatesRest⟩) ∧
    (∀ (sock : socket_state_t) (setErr : Option Nat) (st : runner_state_t)
        (rest : List SfOutcome) (gates : List (Option Nat)) (e : Nat),
        sock.nonBlocking = true → e ≠ EAGAIN →
        runOp sock setErr st (SfOutcome.err e :: rest) gates
            = ⟨st, sock, OpResult.done (some e) st.m_transfered_size,
                [Ev.attempt (min st.m_remained_size st.m_chunk_size),
                  Ev.cb (some e) st.m_transfered_size], rest, gates⟩) := by
  have hturn : ∀ (sock : socket_state_t) (setErr : Option Nat) (st : runner_state_t)
      (rest : List SfOutcome), sock.nonBlocking = true →
      init_next_write sock setErr st (SfOutcome.err EAGAIN :: rest)
        = ⟨st, sock, TurnResult.waiting,
            [Ev.attempt (min st.m_remained_size st.m_chunk_size), Ev.waitReg], rest⟩ := by
    intro sock setErr st rest hsock
    simp [init_next_write, hsock, runLoop, sendfileLoop]
  refine ⟨?_, ?_, ?_⟩
  · intro sock setErr st rest gs e hsock
    refine ⟨by rw [hturn _ _ _ _ hsock], by rw [hturn _ _ _ _ hsock],
      by rw [hturn _ _ _ _ hsock], ?_⟩
    simp only [runOp, hturn _ _ _ _ hsock]
    rfl
  · intro sock setErr st rest gs hsock hrem
    simp only [runOp, hturn _ _ _ _ hsock]
    simp [hrem]
  · intro sock setErr st rest gates e hsock he
    have hloop : init_next_write sock setErr st (SfOutcome.err e :: rest)
        = ⟨st, sock, TurnResult.callback (some e) st.m_transfered_size,
            [Ev.attempt (min st.m_remained_size st.m_chunk_size),
              Ev.cb (some e) st.m_transfered_size], rest⟩ := by
      simp [init_next_write, hsock, runLoop, sendfileLoop, he]
    cases gates with
    | nil => simp only [runOp, hloop]
    | cons g gs => simp only [runOp, hloop]

theorem claim_C7_witness :
    (init_next_write ⟨true⟩ none ⟨3, 0, 7, 2, 4⟩ [SfOutcome.err EAGAIN]).result
        = TurnResult.waiting ∧
    runOp ⟨true⟩ none ⟨3, 0, 7, 2, 4⟩ [SfOutcome.err EAGAIN] [some 104]
        = ⟨⟨3, 0, 7, 2, 4⟩, ⟨true⟩, OpResult.done (some 104) 2,
            [Ev.attempt 4, Ev.waitReg, Ev.cb (some 104) 2], [], []⟩ ∧
    runOp ⟨true⟩ none ⟨3, 0, 7, 2, 4⟩ [SfOutcome.err 32] []
        = ⟨⟨3, 0, 7, 2, 4⟩, ⟨true⟩, OpResult.done (some 32) 2,
            [Ev.attempt 4, Ev.cb (some 32) 2], [], []⟩ := by
  have h1 := (claim_C7.1 ⟨true⟩ none ⟨3, 0, 7, 2, 4⟩ [] [] 104 (by decide)).1
  have h2 := (claim_C7.1 ⟨true⟩ none ⟨3, 0, 7, 2, 4⟩ [] [] 104 (by decide)).2.2.2
  have h3 := claim_C7.2.2 ⟨true⟩ none ⟨3, 0, 7, 2, 4⟩ [] [] 32 (by decide) (by decide)
  exact ⟨h1, h2, h3⟩

/-- C9: The specialised runner lazily ensures non-blocking mode: if the
socket is not yet non-blocking and the switch fails with error `e`, the
turn terminates at once with the callback invoked with `e` and the
current `m_transfered_size`, before any `sendfile` call (no attempt in
its trace, oracle unconsumed); if the switch succeeds the loop runs on a
now-non-blocking socket; if the socket is already non-blocking the switch
outcome is never consulted; and whenever a turn makes any `sendfile`
call, the socket coming out of that turn is in non-blocking mode. -/
theorem claim_C9 :
    (∀ (sock : socket_state_t) (st : runner_state_t) (os : List SfOutcome) (e : Nat),
        sock.nonBlocking = false →
        init_next_write sock (some e) st os
          = ⟨st, sock, TurnResult.callback (some e) st.m_transfered_size,
              [Ev.cb (some e) st.m_transfered_size], os⟩) ∧
    (∀ (sock : socket_state_t) (st : runner_state_t) (os : List SfOutcome),
        sock.nonBlocking = false →
        init_next_write sock none st os = runLoop ⟨true⟩ st os ∧
        (init_next_write sock none st os).socket.nonBlocking = true) ∧
    (∀ (st : runner_state_t) (os : List SfOutcome) (a b : Option Nat),
        init_next_write ⟨true⟩ a st os = init_next_write ⟨true⟩ b st os) ∧
    (∀ (sock : socket_state_t) (setErr : Option Nat) (st : runner_state_t)
        (os : List SfOutcome),
        attemptCount (init_next_write sock setErr st os).trace ≠ 0 →
        (init_next_write sock setErr st os).socket.nonBlocking = true) := by
  have hsockpass : ∀ (sk : socket_state_t) (st : runner_state_t) (os : List SfOutcome),
      (runLoop sk st os).socket = sk := by
    intro sk st os
    rcases hexit : (sendfileLoop st os).exit with _ | e
    · simp [runLoop, hexit]
    · cases e <;> simp [runLoop, hexit]
  refine ⟨?_, ?_, ?_, ?_⟩
  · intro sock st os e hsock
    simp [init_next_write, hsock]
  · intro sock st os hsock
    have he : init_next_write sock none st os = runLoop ⟨true⟩ st os := by
      simp [init_next_write, hsock]
    exact ⟨he, by rw [he, hsockpass]⟩
  · intro st os a b
    simp [init_next_write]
  · intro sock setErr st os hatt
    cases hsock : sock.nonBlocking with
    | true =>
      have he : init_next_write sock setErr st os = runLoop sock st os := by
        simp [init_next_write, hsock]
      rw [he, hsockpass, hsock]
    | false =>
      cases setErr with
      | some e =>
        exfalso
        apply hatt
        simp [init_next_write, hsock, attemptCount, List.countP, List.countP.go, isAttempt]
      | none =>
        have he : init_next_write sock none st os = runLoop ⟨true⟩ st os := by
          simp [init_next_write, hsock]
        rw [he, hsockpass]

theorem claim_C9_witness :
    init_next_write ⟨false⟩ (some 13) ⟨3, 0, 7, 2, 4⟩ [SfOutcome.ok 1]
      = ⟨⟨3, 0, 7, 2, 4⟩, ⟨false⟩, TurnResult.callback (some 13) 2,
          [Ev.cb (some 13) 2], [SfOutcome.ok 1]⟩ ∧
    (init_next_write ⟨false⟩ none ⟨3, 0, 7, 2, 4⟩ [SfOutcome.ok 1]).socket.nonBlocking = true ∧
    (init_next_write ⟨true⟩ none ⟨3, 0, 7, 2, 4⟩ [SfOutcome.ok 1]).socket.nonBlocking = true := by
  refine ⟨claim_C9.1 ⟨false⟩ ⟨3, 0, 7, 2, 4⟩ [SfOutcome.ok 1] 13 (by decide),
    (claim_C9.2.1 ⟨false⟩ ⟨3, 0, 7, 2, 4⟩ [SfOutcome.ok 1] (by decide)).2,
    claim_C9.2.2.2 ⟨true⟩ none ⟨3, 0, 7, 2, 4⟩ [SfOutcome.ok 1] (by decide)⟩

/-- C10: For every socket type other than the plain TCP socket the
runner's `init_next_write` has an entirely commented-out body: it makes
no `sendfile` call, registers no readiness wait, never invokes the
completion callback, consumes no oracle and leaves the runner state
(offset, remaining, transferred) and the socket unchanged. -/
theorem claim_C10 (sock : socket_state_t) (st : runner_state_t)
    (os : List SfOutcome) :
    (init_next_write_generic sock st os).runner = st ∧
    (init_next_write_generic sock st os).socket = sock ∧
    (init_next_write_generic sock st os).rest = os ∧
    attemptCount (init_next_write_generic sock st os).trace = 0 ∧
    waitRegCount (init_next_write_generic sock st os).trace = 0 ∧
    cbCount (init_next_write_generic sock st os).trace = 0 ∧
    (init_next_write_generic sock st os).result = TurnResult.returned :=
  ⟨rfl, rfl, rfl, rfl, rfl, rfl, rfl⟩

/-- C3 counterexample: at a state with `m_remained_size = 100 > 0`, a
zero-length `sendfile` result does not terminate the operation with a
failure callback; the turn invokes no callback at all and instead
suspends on a writable-readiness wait. -/
theorem claim_C3_counterexample :
    0 < (100 : Nat) ∧
    (init_next_write ⟨true⟩ none ⟨3, 0, 100, 0, 4096⟩ [SfOutcome.ok 0]).result
      = TurnResult.waiting ∧
    cbCount (init_next_write ⟨true⟩ none ⟨3, 0, 100, 0, 4096⟩ [SfOutcome.ok 0]).trace
      = 0 := by
  decide

/-- C3 (amended): when a transfer attempt returns a zero-length result
while `m_remained_size > 0`, the engine does not terminate: it treats the
zero return exactly like would-block, registering a single
writable-readiness wait and suspending with its state unchanged, and on
an error-free resumption it re-enters the loop from the same state. -/
theorem claim_C3 :
    (∀ (sock : socket_state_t) (setErr : Option Nat) (st : runner_state_t)
        (rest : List SfOutcome),
        sock.nonBlocking = true →
        (init_next_write sock setErr st (SfOutcome.ok 0 :: rest)).result
            = TurnResult.waiting ∧
        (init_next_write sock setErr st (SfOutcome.ok 0 :: rest)).runner = st ∧
        (init_next_write sock setErr st (SfOutcome.ok 0 :: rest)).trace
            = [Ev.attempt (min st.m_remained_size st.m_chunk_size), Ev.waitReg]) ∧
    (∀ (sock : socket_state_t) (setErr : Option Nat) (st : runner_state_t)
        (rest : List SfOutcome) (gs : List (Option Nat)),
        sock.nonBlocking = true → st.m_remained_size ≠ 0 →
        runOp sock setErr st (SfOutcome.ok 0 :: rest) (none :: gs)
            = ⟨(runOp sock setErr st rest gs).runner,
                (runOp sock setErr st rest gs).socket,
                (runOp sock setErr st rest gs).result,
                [Ev.attempt (min st.m_remained_size st.m_chunk_size), Ev.waitReg]
                  ++ (runOp sock setErr st rest gs).trace,
                (runOp sock setErr st rest gs).osRest,
                (runOp sock setErr st rest gs).gatesRest⟩) := by
  have hturn : ∀ (sock : socket_state_t) (setErr : Option Nat) (st : runner_state_t)
      (rest : List SfOutcome), sock.nonBlocking = true →
      init_next_write sock setErr st (SfOutcome.ok 0 :: rest)
        = ⟨st, sock, TurnResult.waiting,
            [Ev.attempt (min st.m_remained_size st.m_chunk_size), Ev.waitReg], rest⟩ := by
    intro sock setErr st rest hsock
    simp [init_next_write, hsock, runLoop, sendfileLoop]
  constructor
  · intro sock setErr st rest hsock
    exact ⟨by rw [hturn _ _ _ _ hsock], by rw [hturn _ _ _ _ hsock],
      by rw [hturn _ _ _ _ hsock]⟩
  · intro sock setErr st rest gs hsock hrem
    simp only [runOp, hturn _ _ _ _ hsock]
    simp [hrem]

theorem claim_C3_witness :
    (init_next_write ⟨true⟩ none ⟨3, 0, 100, 0, 4096⟩ [SfOutcome.ok 0]).trace
      = [Ev.attempt 100, Ev.waitReg] ∧
    runOp ⟨true⟩ none ⟨3, 0, 100, 0, 4096⟩ [SfOutcome.ok 0, SfOutcome.ok 100] [none]
      = ⟨(runOp ⟨true⟩ none ⟨3, 0, 100, 0, 4096⟩ [SfOutcome.ok 100] []).runner,
          (runOp ⟨true⟩ none ⟨3, 0, 100, 0, 4096⟩ [SfOutcome.ok 100] []).socket,
          (runOp ⟨true⟩ none ⟨3, 0, 100, 0, 4096⟩ [SfOutcome.ok 100] []).result,
          [Ev.attempt 100, Ev.waitReg]
            ++ (runOp ⟨true⟩ none ⟨3, 0, 100, 0, 4096⟩ [SfOutcome.ok 100] []).trace,
          (runOp ⟨true⟩ none ⟨3, 0, 100, 0, 4096⟩ [SfOutcome.ok 100] []).osRest,
          (runOp ⟨true⟩ none ⟨3, 0, 100, 0, 4096⟩ [SfOutcome.ok 100] []).gatesRest⟩ := by
  exact ⟨(claim_C3.1 ⟨true⟩ none ⟨3, 0, 100, 0, 4096⟩ [SfOutcome.ok 0] (by decide)).2.2,
    claim_C3.2 ⟨true⟩ none ⟨3, 0, 100, 0, 4096⟩ [SfOutcome.ok 100] [] (by decide) (by decide)⟩

/-- C4 counterexample: in Scenario A (10,000 bytes, chunk 4,096,
always-writable socket: the kernel accepts every request in full and the
readiness gate resolves without error) the run makes four `sendfile`
calls, not three — the loop has no `remaining == 0` check, so after the
third call it issues a zero-byte fourth call — and registers one
readiness wait before the success callback, instead of invoking the
callback immediately with no further wait. -/
theorem claim_C4_counterexample :
    attemptCount (runOp ⟨true⟩ none (mkRunner ⟨3, 0, 10000, 4096, 100⟩)
        [SfOutcome.ok 4096, SfOutcome.ok 4096, SfOutcome.ok 1808, SfOutcome.ok 0]
        [none]).trace = 4 ∧
    ¬ attemptCount (runOp ⟨true⟩ none (mkRunner ⟨3, 0, 10000, 4096, 100⟩)
        [SfOutcome.ok 4096, SfOutcome.ok 4096, SfOutcome.ok 1808, SfOutcome.ok 0]
        [none]).trace = 3 ∧
    waitRegCount (runOp ⟨true⟩ none (mkRunner ⟨3, 0, 10000, 4096, 100⟩)
        [SfOutcome.ok 4096, SfOutcome.ok 4096, SfOutcome.ok 1808, SfOutcome.ok 0]
        [none]).trace = 1 := by
  decide

/-- C4 (amended): when the loop is re-entered with `m_remained_size = 0`
the engine does not invoke the callback synchronously; it issues one more
`sendfile` call requesting 0 bytes, which returns 0, registers a single
readiness wait, and the resolution of that wait (finding
`m_remained_size = 0`) invokes the success callback with the transferred
total.  In Scenario A this yields four `sendfile` calls
(4096, 4096, 1808, 0), one readiness wait and the single success
callback with `transferred = 10000`. -/
theorem claim_C4 :
    (∀ (sock : socket_state_t) (setErr : Option Nat) (st : runner_state_t)
        (rest : List SfOutcome) (gs : List (Option Nat)),
        sock.nonBlocking = true → st.m_remained_size = 0 →
        runOp sock setErr st (SfOutcome.ok 0 :: rest) (none :: gs)
          = ⟨st, sock, OpResult.done none st.m_transfered_size,
              [Ev.attempt 0, Ev.waitReg, Ev.cb none st.m_transfered_size],
              rest, gs⟩) ∧
    runOp ⟨true⟩ none (mkRunner ⟨3, 0, 10000, 4096, 100⟩)
        [SfOutcome.ok 4096, SfOutcome.ok 4096, SfOutcome.ok 1808, SfOutcome.ok 0]
        [none]
      = ⟨⟨3, 10000, 0, 10000, 4096⟩, ⟨true⟩, OpResult.done none 10000,
          [Ev.attempt 4096, Ev.attempt 4096, Ev.attempt 1808, Ev.attempt 0,
            Ev.waitReg, Ev.cb none 10000], [], []⟩ := by
  constructor
  · intro sock setErr st rest gs hsock hrem
    have hturn : init_next_write sock setErr st (SfOutcome.ok 0 :: rest)
        = ⟨st, sock, TurnResult.waiting, [Ev.attempt 0, Ev.waitReg], rest⟩ := by
      simp [init_next_write, hsock, runLoop, sendfileLoop, hrem]
    simp only [runOp, hturn]
    simp [hrem]
  · decide

theorem claim_C4_witness :
    runOp ⟨true⟩ none ⟨9, 12, 0, 12, 4⟩ [SfOutcome.ok 0] [none]
      = ⟨⟨9, 12, 0, 12, 4⟩, ⟨true⟩, OpResult.done none 12,
          [Ev.attempt 0, Ev.waitReg, Ev.cb none 12], [], []⟩ :=
  claim_C4.1 ⟨true⟩ none ⟨9, 12, 0, 12, 4⟩ [] [] (by decide) (by decide)

/-- C2: the deadline is checked before each transfer attempt: whenever
the clock reads `now` with `deadline ≤ now`, the loop terminates at once
with the timeout outcome carrying the current transferred count, making
no `sendfile` call and leaving the oracle unconsumed; in particular, if
the deadline is already in the past at construction (negative time
limit), the freshly constructed operation reports the timeout outcome
with `transferred = 0` without attempting any transfer. -/
theorem claim_C2 :
    (∀ (deadline now : Int) (clk : List Int) (st : runner_state_t)
        (os : List SfOutcome),
        deadline ≤ now →
        deadlineLoop deadline (now :: clk) st os
          = ⟨st, some (DlExit.timeoutCb st.m_transfered_size), [], os⟩) ∧
    (∀ (opts : sendfile_options_t) (cnow now1 : Int) (clk : List Int)
        (os : List SfOutcome),
        opts.timelimit < 0 → cnow ≤ now1 →
        deadlineLoop (expires_after cnow opts.timelimit) (now1 :: clk)
            (mkRunner opts) os
          = ⟨mkRunner opts, some (DlExit.timeoutCb 0), [], os⟩) := by
  constructor
  · intro deadline now clk st os h
    simp [deadlineLoop, h]
  · intro opts cnow now1 clk os htl hle
    have h : expires_after cnow opts.timelimit ≤ now1 := by
      simp only [expires_after]; omega
    simp [deadlineLoop, h, mkRunner]

theorem claim_C2_witness :
    deadlineLoop 5 [7] ⟨3, 0, 100, 20, 10⟩ [SfOutcome.ok 10]
      = ⟨⟨3, 0, 100, 20, 10⟩, some (DlExit.timeoutCb 20), [], [SfOutcome.ok 10]⟩ ∧
    deadlineLoop (expires_after 10 (-3)) [10] (mkRunner ⟨3, 0, 100, 10, -3⟩) []
      = ⟨mkRunner ⟨3, 0, 100, 10, -3⟩, some (DlExit.timeoutCb 0), [], []⟩ :=
  ⟨claim_C2.1 5 7 [] ⟨3, 0, 100, 20, 10⟩ [SfOutcome.ok 10] (by decide),
    claim_C2.2 ⟨3, 0, 100, 10, -3⟩ 10 10 [] [] (by decide) (by decide)⟩

theorem fileSlice_append (file : Nat → Nat) (off a b : Nat) :
    fileSlice file off a ++ fileSlice file (off + a) b
      = fileSlice file off (a + b) := by
  simp only [fileSlice, List.range_add, List.map_append, List.map_map]
  have hfun : ((fun i => file (off + i)) ∘ fun x => a + x)
      = (fun i => file (off + a + i)) := by
    funext i
    simp [Function.comp, Nat.add_assoc]
  rw [hfun]

/-- Under the cooperative oracle the loop drains the whole request: it
stops on the final zero-byte call's zero return (exit `wait`), with
`m_remained_size = 0`, the offset and transferred count advanced by the
whole request, and the oracle fully consumed. -/
theorem coop_loop (remaining : Nat) :
    ∀ st : runner_state_t, st.m_remained_size = remaining →
    0 < st.m_chunk_size →
    (sendfileLoop st (coopOracle st.m_remained_size st.m_chunk_size)).exit
        = some LoopExit.wait ∧
    (sendfileLoop st (coopOracle st.m_remained_size st.m_chunk_size)).state
        = ⟨st.m_file_descriptor, st.m_next_write_offset + st.m_remained_size, 0,
            st.m_transfered_size + st.m_remained_size, st.m_chunk_size⟩ ∧
    (sendfileLoop st (coopOracle st.m_remained_size st.m_chunk_size)).rest = [] := by
  induction remaining using Nat.strong_induction_on with
  | _ remaining ih =>
    intro st hrem hc
    subst hrem
    obtain ⟨fd, off, rem, tr, ch⟩ := st
    simp only at ih hc ⊢
    by_cases h0 : rem = 0
    · subst h0
      rw [coopOracle, if_pos (Or.inl rfl)]
      simp [sendfileLoop]
    · have hd0 : ¬ (rem = 0 ∨ ch = 0) := by omega
      have hdne : ¬ min rem ch = 0 := by omega
      have hdle : min rem ch ≤ rem := Nat.min_le_left _ _
      obtain ⟨re, rs, rr⟩ := ih (rem - min rem ch) (by omega)
        ⟨fd, off + min rem ch, rem - min rem ch, tr + min rem ch, ch⟩ rfl hc
      rw [coopOracle, if_neg hd0]
      simp only [sendfileLoop, hdne, if_false, progress]
      simp only at re rs rr
      refine ⟨re, ?_, rr⟩
      rw [rs, runner_state_t.mk.injEq]
      omega

/-- Under the cooperative oracle the loop hands exactly the requested
file slice to the socket, in offset order. -/
theorem coop_sent (file : Nat → Nat) (remaining : Nat) :
    ∀ st : runner_state_t, st.m_remained_size = remaining →
    0 < st.m_chunk_size →
    loopSent file st (coopOracle st.m_remained_size st.m_chunk_size)
      = fileSlice file st.m_next_write_offset st.m_remained_size := by
  induction remaining using Nat.strong_induction_on with
  | _ remaining ih =>
    intro st hrem hc
    subst hrem
    obtain ⟨fd, off, rem, tr, ch⟩ := st
    simp only at ih hc ⊢
    by_cases h0 : rem = 0
    · subst h0
      rw [coopOracle, if_pos (Or.inl rfl)]
      simp [loopSent, fileSlice]
    · have hd0 : ¬ (rem = 0 ∨ ch = 0) := by omega
      have hdne : ¬ min rem ch = 0 := by omega
      have hdle : min rem ch ≤ rem := Nat.min_le_left _ _
      have hrec := ih (rem - min rem ch) (by omega)
        ⟨fd, off + min rem ch, rem - min rem ch, tr + min rem ch, ch⟩ rfl hc
      simp only at hrec
      rw [coopOracle, if_neg hd0]
      simp only [loopSent, hdne, if_false, progress]
      rw [hrec, fileSlice_append]
      congr 1
      omega

/-- The cooperative Buffered run delivers exactly the requested file
slice and ends in success with the whole request transferred. -/
theorem buffered_run_eq (file : Nat → Nat) (remaining : Nat) :
    ∀ (off transferred chunk : Nat), 0 < chunk →
    buffered_strategy_run file off remaining transferred chunk
      = (fileSlice file off remaining, none, transferred + remaining) := by
  induction remaining using Nat.strong_induction_on with
  | _ remaining ih =>
    intro off transferred chunk hc
    by_cases h0 : remaining = 0
    · subst h0
      rw [buffered_strategy_run, if_pos (Or.inl rfl)]
      simp [fileSlice]
    · have hdle : min remaining chunk ≤ remaining := Nat.min_le_left _ _
      have hdne : ¬ min remaining chunk = 0 := by omega
      rw [buffered_strategy_run, if_neg (by omega : ¬(remaining = 0 ∨ chunk = 0))]
      have hrec := ih (remaining - min remaining chunk) (by omega)
        (off + min remaining chunk) (transferred + min remaining chunk) chunk hc
      simp only [hrec, fileSlice_append]
      have h1 : min remaining chunk + (remaining - min remaining chunk) = remaining := by
        omega
      rw [h1]
      have h2 : transferred + min remaining chunk + (remaining - min remaining chunk)
          = transferred + remaining := by omega
      rw [h2]

theorem runLoop_result_of_wait (sock : socket_state_t) (st : runner_state_t)
    (os : List SfOutcome) (h : (sendfileLoop st os).exit = some LoopExit.wait) :
    (runLoop sock st os).result = TurnResult.waiting := by
  simp [runLoop, h]

/-- C8: For the same `(offset, size)` request over the same file, and a
cooperative environment (always-writable socket, full reads and writes),
the Direct strategy — the specialised runner driven by the cooperative
`sendfile` oracle — delivers to the socket exactly the file bytes
`[offset, offset + size)`, and so does the spec-modelled Buffered
strategy: byte-identical data, with both runs reaching the success
outcome with `transferred = size`. -/
theorem claim_C8 (file : Nat → Nat) (opts : sendfile_options_t)
    (hc : 0 < opts.chunk_size) :
    opSent file ⟨true⟩ none (mkRunner opts)
        (coopOracle opts.size opts.chunk_size) [none]
      = fileSlice file opts.offset opts.size ∧
    (buffered_strategy_run file opts.offset opts.size 0 opts.chunk_size).1
      = fileSlice file opts.offset opts.size ∧
    opSent file ⟨true⟩ none (mkRunner opts)
        (coopOracle opts.size opts.chunk_size) [none]
      = (buffered_strategy_run file opts.offset opts.size 0 opts.chunk_size).1 ∧
    (runOp ⟨true⟩ none (mkRunner opts)
        (coopOracle opts.size opts.chunk_size) [none]).result
      = OpResult.done none opts.size ∧
    (buffered_strategy_run file opts.offset opts.size 0 opts.chunk_size).2
      = (none, opts.size) := by
  have hcm : 0 < (mkRunner opts).m_chunk_size := hc
  have hco : coopOracle opts.size opts.chunk_size
      = coopOracle (mkRunner opts).m_remained_size (mkRunner opts).m_chunk_size := rfl
  obtain ⟨he, hs, hr⟩ := coop_loop (mkRunner opts).m_remained_size (mkRunner opts) rfl hcm
  have hinit : init_next_write ⟨true⟩ none (mkRunner opts)
        (coopOracle (mkRunner opts).m_remained_size (mkRunner opts).m_chunk_size)
      = runLoop ⟨true⟩ (mkRunner opts)
        (coopOracle (mkRunner opts).m_remained_size (mkRunner opts).m_chunk_size) := by
    simp [init_next_write]
  have hres : (init_next_write ⟨true⟩ none (mkRunner opts)
        (coopOracle (mkRunner opts).m_remained_size (mkRunner opts).m_chunk_size)).result
      = TurnResult.waiting := by
    rw [hinit]; exact runLoop_result_of_wait _ _ _ he
  have hrunner : (init_next_write ⟨true⟩ none (mkRunner opts)
        (coopOracle (mkRunner opts).m_remained_size (mkRunner opts).m_chunk_size)).runner
      = ⟨opts.file_descriptor, opts.offset + opts.size, 0, 0 + opts.size,
          opts.chunk_size⟩ := by
    rw [hinit, (runLoop_fields _ _ _).1, hs]
    rfl
  have hsent : loopSent file (mkRunner opts)
        (coopOracle (mkRunner opts).m_remained_size (mkRunner opts).m_chunk_size)
      = fileSlice file opts.offset opts.size :=
    coop_sent file (mkRunner opts).m_remained_size (mkRunner opts) rfl hcm
  have hbuf := buffered_run_eq file opts.size opts.offset 0 opts.chunk_size hc
  have hdirect : opSent file ⟨true⟩ none (mkRunner opts)
        (coopOracle opts.size opts.chunk_size) [none]
      = fileSlice file opts.offset opts.size := by
    rw [hco]
    simp only [opSent, hres, hrunner]
    simp [turnSent]
    exact hsent
  refine ⟨hdirect, by rw [hbuf], ?_, ?_, by rw [hbuf]; simp⟩
  · rw [hdirect, hbuf]
  · rw [hco]
    simp only [runOp, hres, hrunner]
    simp

theorem claim_C8_witness :
    opSent (fun i => i % 256) ⟨true⟩ none (mkRunner ⟨3, 2, 5, 2, 9⟩)
        (coopOracle 5 2) [none]
      = fileSlice (fun i => i % 256) 2 5 ∧
    opSent (fun i => i % 256) ⟨true⟩ none (mkRunner ⟨3, 2, 5, 2, 9⟩)
        (coopOracle 5 2) [none]
      = (buffered_strategy_run (fun i => i % 256) 2 5 0 2).1 :=
  ⟨(claim_C8 (fun i => i % 256) ⟨3, 2, 5, 2, 9⟩ (by decide)).1,
    (claim_C8 (fun i => i % 256) ⟨3, 2, 5, 2, 9⟩ (by decide)).2.2.1⟩

end Restinio
